import Mathlib

/-!
# SkillForge core: a shallow embedding

This file embeds the core of the SkillForge repository (registry, tokenizer /
IDF weighter, scorer, router, runtime) in Lean 4 and proves the frozen claims
about it.

Modelling conventions:
* JS strings are Lean `String`s; character-level work happens on `List Char`.
  `toLowerCase` is modelled by `Char.toLower` (the inputs of interest are
  ASCII, where the two agree), and the regex classes `[^a-z0-9]`, `\w` and the
  assertion `\b` are modelled directly on character lists.
* A JS `Map` is an association list with JS insertion-order semantics:
  setting an existing key updates it in place, setting a new key appends.
* `async` functions returning promises that may reject are modelled as pure
  functions into `Except String`; `performance.now()` is modelled by explicit
  clock readings (one per call site on each control path), passed as
  parameters; `Math.round` is `round : ℚ → ℤ`.
* `Math.log` on IEEE doubles is idealised as `Real.log` on `ℝ`; scores are
  real numbers.
* The dynamically imported agent-runner backend is modelled as an explicit
  environment: `none` models a failed import ("backend unreachable"), and a
  present runner returns `Except String` ("backend error" on `.error`).
* `Array.prototype.sort` (guaranteed stable by ES2019) with the comparator
  `(a, b) => b.score - a.score` is modelled by the stable `List.mergeSort`
  with the total preorder `b.score ≤ a.score`.
-/

namespace SkillForge

/-- Characters are tokens of text; a token is a list of characters. -/
abbrev Tok := List Char

/-- Lowercase a string into a character list (models `s.toLowerCase()`). -/
def lowerStr (s : String) : Tok := s.data.map Char.toLower

/-- Membership in the regex class `[a-z0-9]` (the text is lowercased first). -/
def isLowerAlnum (c : Char) : Bool :=
  ('a' ≤ c && c ≤ 'z') || ('0' ≤ c && c ≤ '9')

/-- Membership in the regex class `\w` = `[A-Za-z0-9_]`, used by `\b`. -/
def isWordChar (c : Char) : Bool := c.isAlpha || c.isDigit || c == '_'

/-- Whether position `i` of `s` holds a word character (out of range: no). -/
def wordAt (s : Tok) (i : Nat) : Bool :=
  match s.get? i with
  | some c => isWordChar c
  | none => false

/-- The regex assertion `\b` at position `i` of `s`: the word-ness of the
character before `i` differs from the word-ness of the character at `i`. -/
def boundaryAt (s : Tok) (i : Nat) : Bool :=
  (if i = 0 then false else wordAt s (i - 1)) != wordAt s i

/-- `pat` occurs as a contiguous substring of `s` starting at index `i`. -/
def occursAt (pat s : Tok) (i : Nat) : Bool :=
  decide (i + pat.length ≤ s.length) && ((s.drop i).take pat.length == pat)

/-- Models `new RegExp("\\b" + escapeRegex(pat) + "\\b").test(s)`: `pat` is a
regex-escaped literal, so the test succeeds iff `pat` occurs somewhere in `s`
with a word boundary at both ends. -/
def testWordBoundary (pat s : Tok) : Bool :=
  (List.range (s.length + 1)).any fun i =>
    occursAt pat s i && boundaryAt s i && boundaryAt s (i + pat.length)

/-- Models `s.includes(pat)`: substring containment. -/
def containsSubstr (pat s : Tok) : Bool :=
  (List.range (s.length + 1)).any fun i => occursAt pat s i

/-- The fixed stop-word set of the router (`STOP_WORDS`). -/
def stopWords : List Tok :=
  ["the", "and", "for", "are", "but", "not", "you", "all", "can", "had",
   "her", "was", "one", "our", "out", "has", "have", "from", "they", "been",
   "said", "each", "she", "which", "their", "will", "way", "about", "use",
   "when", "what", "your", "how", "this", "that", "with", "via", "using",
   "into", "also", "than", "them", "then", "its", "over", "such", "more"
  ].map String.data

/-- Models `tokenize`: lowercase, split on runs of `[^a-z0-9]`, keep tokens of
length ≥ 3 that are not stop words.  (`List.splitOnP` yields the maximal
alphanumeric runs interleaved with empty chunks; the empties are removed by
the length filter, exactly as in the JS `split(/[^a-z0-9]+/)`.) -/
def tokenize (text : String) : List Tok :=
  ((lowerStr text).splitOnP (fun c => !(isLowerAlnum c))).filter
    (fun w => decide (3 ≤ w.length) && !(stopWords.contains w))

-- -----------------------------------------------------------------------
-- Data model (`types.ts`)
-- -----------------------------------------------------------------------

/-- Opaque key-value metadata payload (`Record<string, unknown>`). -/
abbrev Meta := List (String × String)

/-- `SkillContext`: `input`, `rawInput`, and optional `meta`. -/
structure SkillContext where
  input : String
  rawInput : String
  meta : Option Meta
deriving Repr

/-- `SkillResult`: `output`, `skillName`, `durationMs` (a JS number,
modelled as `ℚ`). -/
structure SkillResult where
  output : String
  skillName : String
  durationMs : ℚ
deriving Repr

/-- `SkillDefinition`.  The `schema` field is never read by the core and is
omitted.  `engine` is the optional execution-mode field read by the runtime
(`skill.engine && skill.engine !== 'direct'`); `execute` is the skill body,
an async fallible function modelled in `Except`. -/
structure SkillDefinition where
  name : String
  description : String
  tags : Option (List String)
  keywords : Option (List String)
  engine : Option String
  execute : SkillContext → Except String SkillResult

/-- `RouteMatch`: a skill paired with its computed score. -/
structure RouteMatch where
  skill : SkillDefinition
  score : ℝ

-- -----------------------------------------------------------------------
-- IDF weighter (`buildIdf` in the router)
-- -----------------------------------------------------------------------

/-- `Map.get` on an insertion-ordered association list. -/
def mapGet {β : Type} (m : List (Tok × β)) (k : Tok) : Option β :=
  List.lookup k m

/-- `Map.set` on an insertion-ordered association list: overwrite in place if
the key is present, append otherwise (JS `Map` semantics). -/
def mapSet {β : Type} (m : List (Tok × β)) (k : Tok) (v : β) :
    List (Tok × β) :=
  if m.any (fun p => p.1 == k) then
    m.map (fun p => if p.1 == k then (k, v) else p)
  else
    m ++ [(k, v)]

/-- The iteration order of `new Set(tokenize(...))`: the tokens with later
duplicates removed (first occurrences kept, in order). -/
def uniqueTokens (text : String) : List Tok :=
  (tokenize text).foldl (fun acc w => if acc.contains w then acc else acc ++ [w]) []

/-- The `wordDocFreq` map of `buildIdf`: for each skill, bump the counter of
every token appearing in its description. -/
def wordDocFreq (skills : List SkillDefinition) : List (Tok × Nat) :=
  skills.foldl
    (fun m skill =>
      (uniqueTokens skill.description).foldl
        (fun m w => mapSet m w ((mapGet m w).getD 0 + 1)) m)
    []

/-- Models `buildIdf`: every counted token is mapped to
`Math.log(docCount / freq)`, idealised over `ℝ`. -/
noncomputable def buildIdf (skills : List SkillDefinition) : List (Tok × ℝ) :=
  (wordDocFreq skills).map
    (fun p => (p.1, Real.log ((skills.length : ℝ) / (p.2 : ℝ))))

/-- Declarative document frequency, following the spec's words: the number of
skills whose description contains the token at least once.  Used to compare
`buildIdf`'s fold against the specified formula. -/
def docFreq (skills : List SkillDefinition) (t : Tok) : Nat :=
  (skills.filter (fun s => (tokenize s.description).contains t)).length

/-- The token appears in at least one skill's description. -/
def appearsInCorpus (skills : List SkillDefinition) (t : Tok) : Bool :=
  skills.any (fun s => (tokenize s.description).contains t)

-- -----------------------------------------------------------------------
-- Scorer (`scoreSkill`)
-- -----------------------------------------------------------------------

/-- Phase 0 of `scoreSkill`: whole-word match of the skill name. -/
def namePhase (skill : SkillDefinition) (input : String) : ℝ :=
  if testWordBoundary (lowerStr skill.name) (lowerStr input) then 20 else 0

/-- The keyword test of phase 1: a keyword containing a space `' '` matches by
substring containment; otherwise it must match at word boundaries. -/
def kwMatches (lower : Tok) (kw : String) : Bool :=
  let k := lowerStr kw
  if k.contains ' ' then containsSubstr k lower else testWordBoundary k lower

/-- Phase 1 of `scoreSkill`: each matching keyword adds 10. -/
def keywordPhase (skill : SkillDefinition) (input : String) : ℝ :=
  match skill.keywords with
  | none => 0
  | some kws =>
      (kws.map (fun kw => if kwMatches (lowerStr input) kw then (10 : ℝ) else 0)).sum

/-- Phase 2 of `scoreSkill`: each tag matching at a word boundary adds 5. -/
def tagPhase (skill : SkillDefinition) (input : String) : ℝ :=
  match skill.tags with
  | none => 0
  | some tags =>
      (tags.map (fun tag =>
        if testWordBoundary (lowerStr tag) (lowerStr input) then (5 : ℝ) else 0)).sum

/-- The description-relevance test of phase 3: an input token matches if it is
verbatim among the description tokens, or fuzzily — one is a prefix of the
other and the shorter side has length ≥ 4. -/
def tokenMatches (descTokens : List Tok) (word : Tok) : Bool :=
  descTokens.contains word ||
  descTokens.any (fun dw =>
    (decide (4 ≤ word.length) && dw.take word.length == word) ||
    (decide (4 ≤ dw.length) && word.take dw.length == dw))

/-- The weight of one matched input token: the IDF value if a weight map was
supplied and has the token, else 1. -/
def descWeight (idf : Option (List (Tok × ℝ))) (word : Tok) : ℝ :=
  match idf with
  | none => 1
  | some m => (List.lookup word m).getD 1

/-- Phase 3 of `scoreSkill`: each matched input token adds its weight. -/
def descPhase (skill : SkillDefinition) (input : String)
    (idf : Option (List (Tok × ℝ))) : ℝ :=
  ((tokenize input).map (fun word =>
    if tokenMatches (tokenize skill.description) word then descWeight idf word
    else 0)).sum

/-- Models `scoreSkill`: the sum of the four additive phases. -/
def scoreSkill (skill : SkillDefinition) (input : String)
    (idf : Option (List (Tok × ℝ))) : ℝ :=
  namePhase skill input + keywordPhase skill input + tagPhase skill input +
    descPhase skill input idf

/-- Whether any of the four scoring phases matches at all. -/
def phaseMatch (skill : SkillDefinition) (input : String) : Bool :=
  testWordBoundary (lowerStr skill.name) (lowerStr input) ||
  (match skill.keywords with
   | none => false
   | some kws => kws.any (kwMatches (lowerStr input))) ||
  (match skill.tags with
   | none => false
   | some tags => tags.any (fun tag =>
       testWordBoundary (lowerStr tag) (lowerStr input))) ||
  (tokenize input).any (fun word => tokenMatches (tokenize skill.description) word)

-- -----------------------------------------------------------------------
-- Router (`route`, `routeBest`)
-- -----------------------------------------------------------------------

/-- The comparator `(a, b) => b.score - a.score` of the stable JS sort, as a
total Boolean preorder: `a` may precede `b` iff `b.score ≤ a.score`. -/
noncomputable def leMatch (a b : RouteMatch) : Bool := decide (b.score ≤ a.score)

/-- The match list built by `route`'s loop before sorting: every skill with a
strictly positive score, in input order, paired with its score. -/
noncomputable def scoredMatches (skills : List SkillDefinition) (input : String)
    (idf : Option (List (Tok × ℝ))) : List RouteMatch :=
  skills.filterMap (fun skill =>
    if 0 < scoreSkill skill input idf then
      some ⟨skill, scoreSkill skill input idf⟩
    else none)

/-- The weight map `route` passes to the scorer: built only when there are at
least 5 skills (`skills.length >= 5`). -/
noncomputable def routeIdf (skills : List SkillDefinition) :
    Option (List (Tok × ℝ)) :=
  if 5 ≤ skills.length then some (buildIdf skills) else none

/-- Models `route`: score every skill, keep the positives, stable-sort by
descending score. -/
noncomputable def route (skills : List SkillDefinition) (input : String) :
    List RouteMatch :=
  (scoredMatches skills input (routeIdf skills)).mergeSort leMatch

/-- Models `routeBest`: the first match, or `none` when there are none. -/
noncomputable def routeBest (skills : List SkillDefinition) (input : String) :
    Option SkillDefinition :=
  match route skills input with
  | [] => none
  | m :: _ => some m.skill

-- -----------------------------------------------------------------------
-- Registry (`registry.ts`)
-- -----------------------------------------------------------------------

/-- `SkillRegistry`: the values of the name-keyed `Map`, in insertion order. -/
structure SkillRegistry where
  skills : List SkillDefinition

/-- The empty registry created at `SkillRuntime` construction. -/
def emptyRegistry : SkillRegistry := ⟨[]⟩

/-- The duplicate-name error message thrown by `register`. -/
def dupMsg (name : String) : String :=
  "Skill \"" ++ name ++ "\" is already registered"

/-- Models `register`: error if the name is present, else store. -/
def register (reg : SkillRegistry) (s : SkillDefinition) :
    Except String SkillRegistry :=
  if reg.skills.any (fun t => t.name == s.name) then .error (dupMsg s.name)
  else .ok ⟨reg.skills ++ [s]⟩

/-- Models the `size` getter. -/
def SkillRegistry.size (reg : SkillRegistry) : Nat := reg.skills.length

-- -----------------------------------------------------------------------
-- Skill helpers (`skill.ts`)
-- -----------------------------------------------------------------------

/-- Models `defineSkill`: validates the required fields (a JS string is falsy
iff it is empty; in this typed embedding `execute` is always present, so that
check cannot fire) and returns the definition unchanged. -/
def defineSkill (d : SkillDefinition) : Except String SkillDefinition :=
  if d.name = "" then .error "Skill must have a name"
  else if d.description = "" then .error "Skill must have a description"
  else .ok d

/-- Models `executeWithTiming`: run the skill's `execute` and overwrite
`skillName` and `durationMs` with the registered name and the measured
duration.  `t1`/`t2` are the two `performance.now()` readings. -/
def executeWithTiming (skill : SkillDefinition) (ctx : SkillContext)
    (t1 t2 : ℚ) : Except String SkillResult :=
  (skill.execute ctx).map fun r =>
    { r with skillName := skill.name, durationMs := ((round (t2 - t1) : ℤ) : ℚ) }

-- -----------------------------------------------------------------------
-- Runtime (`SkillRuntime`)
-- -----------------------------------------------------------------------

/-- The result of `AgentRunner.run`. -/
structure RunOut where
  text : String
  durationMs : ℚ

/-- The agent-runner environment: `none` models a failed dynamic import of
the agent-runner package ("backend unreachable"); otherwise the function maps
(backend identifier, prompt, optional system prompt) to the backend's
fallible result. -/
structure AgentEnv where
  runner : Option (String → String → Option String → Except String RunOut)

/-- The backend identifier chosen for a skill:
`skill.engine === 'codex' ? 'codex' : 'claude-code'`. -/
def backendOf (skill : SkillDefinition) : String :=
  if skill.engine == some "codex" then "codex" else "claude-code"

/-- The best-effort instruction harvest of the delegated path: the skill's own
`execute` is invoked once (with no `meta`), a failure is swallowed, and a
non-empty output becomes the system prompt (`if (instructionResult.output)`:
the empty string is falsy). -/
def harvestPrompt (skill : SkillDefinition) (input : String) : Option String :=
  match skill.execute ⟨input, input, none⟩ with
  | .ok r => if r.output ≠ "" then some r.output else none
  | .error _ => none

/-- The fallback of the delegated path (`catch` block): run the skill's own
`execute` directly (with no `meta`) and overwrite `skillName`/`durationMs`. -/
def agentFallback (skill : SkillDefinition) (input : String) (t1 t2 : ℚ) :
    Except String SkillResult :=
  (skill.execute ⟨input, input, none⟩).map fun r =>
    { r with skillName := skill.name, durationMs := ((round (t2 - t1) : ℤ) : ℚ) }

/-- Models `executeViaAgentRunner`: try the dynamic import, harvest an
instruction prompt (failure swallowed), and run the backend; any import or
backend failure falls back to direct execution. -/
def executeViaAgentRunner (skill : SkillDefinition) (input : String)
    (env : AgentEnv) (t1 t2 : ℚ) : Except String SkillResult :=
  match env.runner with
  | none => agentFallback skill input t1 t2
  | some run =>
      match run (backendOf skill) input (harvestPrompt skill input) with
      | .ok res =>
          .ok { output := res.text, skillName := skill.name,
                durationMs := ((round (t2 - t1) : ℤ) : ℚ) }
      | .error _ => agentFallback skill input t1 t2

/-- The engine test `skill.engine && skill.engine !== 'direct'` (an empty
string is falsy). -/
def nonDefaultEngine (engine : Option String) : Bool :=
  match engine with
  | none => false
  | some e => e ≠ "" && e ≠ "direct"

/-- Models `SkillRuntime.handle`: route to the best skill and execute it,
returning `none` (not an error) when nothing matches. -/
noncomputable def handle (reg : SkillRegistry) (input : String)
    (meta : Option Meta) (env : AgentEnv) (t1 t2 : ℚ) :
    Except String (Option SkillResult) :=
  match routeBest reg.skills input with
  | none => .ok none
  | some skill =>
      if nonDefaultEngine skill.engine then
        (executeViaAgentRunner skill input env t1 t2).map some
      else
        (executeWithTiming skill ⟨input, input, meta⟩ t1 t2).map some

/-- The no-match error message of `handleOrThrow`. -/
def noMatchMsg (input : String) : String :=
  "No skill matched input: \"" ++ input ++ "\""

/-- Models `SkillRuntime.handleOrThrow`: like `handle`, but a missing result
becomes a raised `NoSkillMatched` failure carrying the input. -/
noncomputable def handleOrThrow (reg : SkillRegistry) (input : String)
    (meta : Option Meta) (env : AgentEnv) (t1 t2 : ℚ) :
    Except String SkillResult :=
  match handle reg input meta env t1 t2 with
  | .ok none => .error (noMatchMsg input)
  | .ok (some r) => .ok r
  | .error e => .error e

/-- Models `listSkills`. -/
def listSkills (reg : SkillRegistry) : List String :=
  reg.skills.map (fun s => s.name)

/-- The backend named by a delegated skill is unreachable (dynamic import
failed) or its invocation errors. -/
def backendFails (env : AgentEnv) (skill : SkillDefinition) (input : String) :
    Prop :=
  env.runner = none ∨
  ∃ run msg, env.runner = some run ∧
    run (backendOf skill) input (harvestPrompt skill input) = .error msg

-- -----------------------------------------------------------------------
-- Concrete fixtures used by witnesses and counterexamples
-- -----------------------------------------------------------------------

/-- A direct-engine skill whose body self-reports a wrong name and a wrong
duration. -/
def greetSkill : SkillDefinition :=
  ⟨"greet", "says hello", none, some ["hi"], none,
   fun _ => .ok ⟨"ok", "self", 5⟩⟩

/-- A delegated-engine skill (engine `codex`) whose body self-reports a wrong
name and duration. -/
def weatherSkill : SkillDefinition :=
  ⟨"weather", "zzqq", none, some ["weather"], some "codex",
   fun _ => .ok ⟨"forecast", "self", 7⟩⟩

/-- A delegated-engine skill whose body reports whether the context it was
given carried a `meta` payload. -/
def metaProbeSkill : SkillDefinition :=
  ⟨"greet", "zzqq", none, some ["hi"], some "codex",
   fun ctx => .ok ⟨(match ctx.meta with
                    | none => "NOMETA"
                    | some _ => "META"), "self", 0⟩⟩

/-- Whitespace in the sense of the spec's "keyword containing whitespace"
(the JS character class `\s`, restricted to its common members).  The source
code itself checks only for the space character `' '`. -/
def isWhitespaceChar (c : Char) : Bool :=
  c == ' ' || c == '\t' || c == '\n' || c == '\r'

/-- A skill whose only keyword contains a tab — whitespace that is not a
space character. -/
def tabSkill : SkillDefinition :=
  ⟨"qqq", "zzqq", none, some ["good\tmorning"], none,
   fun _ => .ok ⟨"", "qqq", 0⟩⟩

/-- A minimal skill with only a name and a description. -/
def dummySkill (nm ds : String) : SkillDefinition :=
  ⟨nm, ds, none, none, none, fun _ => .ok ⟨"", nm, 0⟩⟩

/-- Five distinct skills: enough to reach the corpus-weighting threshold. -/
def fiveSkills : List SkillDefinition :=
  [dummySkill "s1" "alpha beta", dummySkill "s2" "gamma beta",
   dummySkill "s3" "delta", dummySkill "s4" "epsilon", dummySkill "s5" "zeta"]

-- -----------------------------------------------------------------------
-- General helper lemmas
-- -----------------------------------------------------------------------

lemma ten_pos : (0 : ℝ) < 10 := by norm_num

lemma containsSubstr_append_middle (pre pat suf : Tok) :
    containsSubstr pat (pre ++ pat ++ suf) = true := by
  unfold containsSubstr
  rw [List.any_eq_true]
  refine ⟨pre.length, ?_, ?_⟩
  · rw [List.mem_range]
    simp [List.length_append]
    omega
  · unfold occursAt
    rw [Bool.and_eq_true]
    constructor
    · simp [List.length_append]
    · rw [List.append_assoc, List.drop_left, List.take_left]
      exact beq_self_eq_true pat

lemma sum_map_eq_zero {α : Type} (l : List α) (f : α → ℝ)
    (h : ∀ a ∈ l, f a = 0) : (l.map f).sum = 0 := by
  rw [List.sum_eq_zero]
  intro x hx
  rcases List.mem_map.mp hx with ⟨a, ha, rfl⟩
  exact h a ha

/-- When none of the four phases matches, the score is exactly 0. -/
lemma scoreSkill_eq_zero (skill : SkillDefinition) (input : String)
    (idf : Option (List (Tok × ℝ))) (h : phaseMatch skill input = false) :
    scoreSkill skill input idf = 0 := by
  unfold phaseMatch at h
  simp only [Bool.or_eq_false_iff] at h
  obtain ⟨⟨⟨h1, h2⟩, h3⟩, h4⟩ := h
  have hn : namePhase skill input = 0 := by simp [namePhase, h1]
  have hk : keywordPhase skill input = 0 := by
    unfold keywordPhase
    cases hkw : skill.keywords with
    | none => rfl
    | some kws =>
        rw [hkw] at h2
        apply sum_map_eq_zero
        intro kw hmem
        have := List.any_eq_false.mp h2 kw hmem
        simp only [Bool.not_eq_true] at this
        simp [this]
  have ht : tagPhase skill input = 0 := by
    unfold tagPhase
    cases htg : skill.tags with
    | none => rfl
    | some tags =>
        rw [htg] at h3
        apply sum_map_eq_zero
        intro tag hmem
        have := List.any_eq_false.mp h3 tag hmem
        simp only [Bool.not_eq_true] at this
        simp [this]
  have hd : descPhase skill input idf = 0 := by
    unfold descPhase
    apply sum_map_eq_zero
    intro w hmem
    have := List.any_eq_false.mp h4 w hmem
    simp only [Bool.not_eq_true] at this
    simp [this]
  rw [scoreSkill, hn, hk, ht, hd]
  norm_num

-- -----------------------------------------------------------------------
-- C4: duplicate registration
-- -----------------------------------------------------------------------

/-- Claim C4: registering a skill whose name is already present fails with the
`DuplicateSkillName` error (and, the embedding being functional, produces no
new registry, so the registry is unchanged); registering the same skill twice
on a fresh registry succeeds the first time, yielding a registry of size 1,
and fails the second time, with the size still 1. -/
theorem register_duplicate_spec (reg : SkillRegistry) (s : SkillDefinition) :
    ((∃ t ∈ reg.skills, t.name = s.name) →
      register reg s = .error (dupMsg s.name))
    ∧ register emptyRegistry s = .ok ⟨[s]⟩
    ∧ SkillRegistry.size ⟨[s]⟩ = 1
    ∧ register ⟨[s]⟩ s = .error (dupMsg s.name) := by
  refine ⟨?_, rfl, rfl, ?_⟩
  · rintro ⟨t, ht, hname⟩
    unfold register
    rw [if_pos]
    rw [List.any_eq_true]
    exact ⟨t, ht, by simp [hname]⟩
  · unfold register
    rw [if_pos]
    simp

/-- Witness for C4 at a concrete skill and registry. -/
theorem register_duplicate_witness :
    register ⟨[⟨"time", "tells the time", none, some ["time"], none,
                fun _ => .ok ⟨"12:00", "time", 0⟩⟩]⟩
             ⟨"time", "tells the time", none, some ["time"], none,
                fun _ => .ok ⟨"12:00", "time", 0⟩⟩
      = .error (dupMsg "time") :=
  (register_duplicate_spec ⟨[_]⟩ _).1 ⟨_, List.mem_singleton.mpr rfl, rfl⟩

-- -----------------------------------------------------------------------
-- C10: defineSkill validation
-- -----------------------------------------------------------------------

/-- Claim C10: `defineSkill` fails when the name or the description is empty
(the JS falsiness check on a present string field), and otherwise returns its
argument unchanged.  The `execute` check of the source cannot fire in this
typed embedding, where `execute` is always present. -/
theorem defineSkill_spec (d : SkillDefinition) :
    (d.name = "" → defineSkill d = .error "Skill must have a name")
    ∧ (d.name ≠ "" → d.description = "" →
        defineSkill d = .error "Skill must have a description")
    ∧ (d.name ≠ "" → d.description ≠ "" → defineSkill d = .ok d) := by
  refine ⟨?_, ?_, ?_⟩
  · intro h
    simp [defineSkill, h]
  · intro h h2
    simp [defineSkill, h, h2]
  · intro h h2
    simp [defineSkill, h, h2]

/-- Witness for C10: a well-formed definition is returned unchanged. -/
theorem defineSkill_witness :
    defineSkill ⟨"echo", "echoes back the input", none, some ["echo"], none,
                 fun c => .ok ⟨c.rawInput, "echo", 0⟩⟩
      = .ok ⟨"echo", "echoes back the input", none, some ["echo"], none,
             fun c => .ok ⟨c.rawInput, "echo", 0⟩⟩ :=
  (defineSkill_spec _).2.2 (by decide) (by decide)

-- -----------------------------------------------------------------------
-- C9: handleOrThrow
-- -----------------------------------------------------------------------

/-- Claim C9: `handleOrThrow` returns exactly `handle`'s outcome when `handle`
produces one; it raises the `NoSkillMatched` failure, whose message carries
the original utterance verbatim, exactly when `handle` returns `none`; and an
error of `handle` itself (a skill body failing) propagates unchanged.  (Error
values are modelled by their message strings, so "NoSkillMatched" is
identified with its message.) -/
theorem handleOrThrow_spec (reg : SkillRegistry) (input : String)
    (meta : Option Meta) (env : AgentEnv) (t1 t2 : ℚ) :
    (∀ r, handle reg input meta env t1 t2 = .ok (some r) →
        handleOrThrow reg input meta env t1 t2 = .ok r)
    ∧ (handle reg input meta env t1 t2 = .ok none →
        handleOrThrow reg input meta env t1 t2 = .error (noMatchMsg input))
    ∧ (∀ r, handleOrThrow reg input meta env t1 t2 = .ok r →
        handle reg input meta env t1 t2 = .ok (some r))
    ∧ (∀ e, handle reg input meta env t1 t2 = .error e →
        handleOrThrow reg input meta env t1 t2 = .error e)
    ∧ containsSubstr input.data (noMatchMsg input).data = true := by
  refine ⟨?_, ?_, ?_, ?_, ?_⟩
  · intro r h
    unfold handleOrThrow
    rw [h]
  · intro h
    unfold handleOrThrow
    rw [h]
  · intro r h
    unfold handleOrThrow at h
    rcases hh : handle reg input meta env t1 t2 with e | o
    · rw [hh] at h
      exact absurd h (by simp)
    · rcases o with _ | r'
      · rw [hh] at h
        exact absurd h (by simp)
      · rw [hh] at h
        simp only [Except.ok.injEq] at h
        rw [h]
  · intro e h
    unfold handleOrThrow
    rw [h]
  · have : (noMatchMsg input).data =
        "No skill matched input: \"".data ++ input.data ++ "\"".data := by
      simp [noMatchMsg]
    rw [this]
    exact containsSubstr_append_middle _ _ _

/-- Witness for C9: on a registry containing only the `time` skill, the query
`"completely unrelated query"` produces no match, and `handleOrThrow` raises
the `NoSkillMatched` message carrying that exact text. -/
theorem handleOrThrow_witness :
    handleOrThrow ⟨[⟨"time", "tells the current time", none,
                     some ["time", "clock"], none,
                     fun _ => .ok ⟨"12:00", "time", 0⟩⟩]⟩
        "completely unrelated query" none ⟨none⟩ 0 0
      = .error (noMatchMsg "completely unrelated query") := by
  apply (handleOrThrow_spec _ _ _ _ _ _).2.1
  have hscore : scoreSkill
      ⟨"time", "tells the current time", none, some ["time", "clock"], none,
       fun _ => .ok ⟨"12:00", "time", 0⟩⟩ "completely unrelated query" none
      = 0 :=
    scoreSkill_eq_zero _ _ none (by decide)
  simp [handle, routeBest, route, scoredMatches, routeIdf, hscore]


-- -----------------------------------------------------------------------
-- Runtime helper lemmas and concrete evaluations
-- -----------------------------------------------------------------------

lemma round_nonneg_rat (q : ℚ) (h : 0 ≤ q) : 0 ≤ round q := by
  rw [round_eq]
  apply Int.le_floor.mpr
  push_cast
  linarith

lemma map_some_eq_ok {ex : Except String SkillResult} {r : SkillResult}
    (h : ex.map some = .ok (some r)) : ex = .ok r := by
  cases ex with
  | error e => simp [Except.map] at h
  | ok r0 =>
      simp only [Except.map, Except.ok.injEq, Option.some.injEq] at h
      rw [h]

lemma handle_nomatch (reg : SkillRegistry) (input : String)
    (meta : Option Meta) (env : AgentEnv) (t1 t2 : ℚ)
    (hrb : routeBest reg.skills input = none) :
    handle reg input meta env t1 t2 = .ok none := by
  simp only [handle, hrb]

lemma handle_direct (reg : SkillRegistry) (input : String)
    (meta : Option Meta) (env : AgentEnv) (t1 t2 : ℚ)
    (skill : SkillDefinition)
    (hrb : routeBest reg.skills input = some skill)
    (he : nonDefaultEngine skill.engine = false) :
    handle reg input meta env t1 t2
      = (executeWithTiming skill ⟨input, input, meta⟩ t1 t2).map some := by
  simp [handle, hrb, he]

lemma handle_delegated (reg : SkillRegistry) (input : String)
    (meta : Option Meta) (env : AgentEnv) (t1 t2 : ℚ)
    (skill : SkillDefinition)
    (hrb : routeBest reg.skills input = some skill)
    (he : nonDefaultEngine skill.engine = true) :
    handle reg input meta env t1 t2
      = (executeViaAgentRunner skill input env t1 t2).map some := by
  simp [handle, hrb, he]

lemma eVAR_import_fail (skill : SkillDefinition) (input : String)
    (env : AgentEnv) (t1 t2 : ℚ) (hr : env.runner = none) :
    executeViaAgentRunner skill input env t1 t2
      = agentFallback skill input t1 t2 := by
  simp only [executeViaAgentRunner, hr]

lemma eVAR_run_ok (skill : SkillDefinition) (input : String)
    (env : AgentEnv) (t1 t2 : ℚ)
    (run : String → String → Option String → Except String RunOut)
    (res : RunOut) (hr : env.runner = some run)
    (hrun : run (backendOf skill) input (harvestPrompt skill input) = .ok res) :
    executeViaAgentRunner skill input env t1 t2
      = .ok ⟨res.text, skill.name, ((round (t2 - t1) : ℤ) : ℚ)⟩ := by
  simp only [executeViaAgentRunner, hr, hrun]

lemma eVAR_run_error (skill : SkillDefinition) (input : String)
    (env : AgentEnv) (t1 t2 : ℚ)
    (run : String → String → Option String → Except String RunOut)
    (msg : String) (hr : env.runner = some run)
    (hrun : run (backendOf skill) input (harvestPrompt skill input)
      = .error msg) :
    executeViaAgentRunner skill input env t1 t2
      = agentFallback skill input t1 t2 := by
  simp only [executeViaAgentRunner, hr, hrun]

/-- The outcome of `executeWithTiming` always carries the skill's registered
name and the measured duration. -/
lemma executeWithTiming_ok {skill : SkillDefinition} {ctx : SkillContext}
    {t1 t2 : ℚ} {r : SkillResult}
    (h : executeWithTiming skill ctx t1 t2 = .ok r) :
    r.skillName = skill.name ∧ r.durationMs = ((round (t2 - t1) : ℤ) : ℚ) := by
  unfold executeWithTiming at h
  cases hex : skill.execute ctx with
  | error e => rw [hex] at h; simp [Except.map] at h
  | ok r0 =>
      rw [hex] at h
      simp only [Except.map, Except.ok.injEq] at h
      rw [← h]
      exact ⟨rfl, rfl⟩

lemma agentFallback_ok {skill : SkillDefinition} {input : String}
    {t1 t2 : ℚ} {r : SkillResult}
    (h : agentFallback skill input t1 t2 = .ok r) :
    r.skillName = skill.name ∧ r.durationMs = ((round (t2 - t1) : ℤ) : ℚ) := by
  unfold agentFallback at h
  cases hex : skill.execute ⟨input, input, none⟩ with
  | error e => rw [hex] at h; simp [Except.map] at h
  | ok r0 =>
      rw [hex] at h
      simp only [Except.map, Except.ok.injEq] at h
      rw [← h]
      exact ⟨rfl, rfl⟩

/-- The outcome of `executeViaAgentRunner` (backend success or fallback)
always carries the skill's registered name and the measured duration. -/
lemma executeViaAgentRunner_ok {skill : SkillDefinition} {input : String}
    {env : AgentEnv} {t1 t2 : ℚ} {r : SkillResult}
    (h : executeViaAgentRunner skill input env t1 t2 = .ok r) :
    r.skillName = skill.name ∧ r.durationMs = ((round (t2 - t1) : ℤ) : ℚ) := by
  cases hr : env.runner with
  | none =>
      rw [eVAR_import_fail skill input env t1 t2 hr] at h
      exact agentFallback_ok h
  | some run =>
      cases hrun : run (backendOf skill) input (harvestPrompt skill input) with
      | ok res =>
          rw [eVAR_run_ok skill input env t1 t2 run res hr hrun] at h
          simp only [Except.ok.injEq] at h
          rw [← h]
          exact ⟨rfl, rfl⟩
      | error e =>
          rw [eVAR_run_error skill input env t1 t2 run e hr hrun] at h
          exact agentFallback_ok h

lemma score_eval_greet : scoreSkill greetSkill "hi" none = 10 := by
  have h1 : testWordBoundary (lowerStr "greet") (lowerStr "hi") = false := by
    decide
  have h2 : kwMatches (lowerStr "hi") "hi" = true := by decide
  have h3 : tokenize "hi" = [] := by decide
  simp [scoreSkill, namePhase, keywordPhase, tagPhase, descPhase, greetSkill,
    h1, h2, h3]

lemma routeBest_eval_greet : routeBest [greetSkill] "hi" = some greetSkill := by
  have h5 : routeIdf [greetSkill] = none := by
    simp [routeIdf]
  simp [routeBest, route, scoredMatches, h5, score_eval_greet, ten_pos]

lemma handle_eval_greet (meta : Option Meta) :
    handle ⟨[greetSkill]⟩ "hi" meta ⟨none⟩ 0 0
      = .ok (some ⟨"ok", "greet", 0⟩) := by
  have hex : greetSkill.execute ⟨"hi", "hi", meta⟩ = .ok ⟨"ok", "self", 5⟩ :=
    rfl
  rw [handle_direct ⟨[greetSkill]⟩ "hi" meta ⟨none⟩ 0 0 greetSkill
    routeBest_eval_greet rfl]
  unfold executeWithTiming
  rw [hex]
  simp [Except.map, greetSkill]

lemma score_eval_weather : scoreSkill weatherSkill "weather" none = 30 := by
  have h1 : testWordBoundary (lowerStr "weather") (lowerStr "weather")
      = true := by decide
  have h2 : kwMatches (lowerStr "weather") "weather" = true := by decide
  have h4 : tokenize "weather" = [['w','e','a','t','h','e','r']] := by decide
  have h5 : tokenMatches (tokenize "zzqq") ['w','e','a','t','h','e','r']
      = false := by decide
  simp [scoreSkill, namePhase, keywordPhase, tagPhase, descPhase, weatherSkill,
    h1, h2, h4, h5]
  norm_num

lemma routeBest_eval_weather :
    routeBest [weatherSkill] "weather" = some weatherSkill := by
  have h5 : routeIdf [weatherSkill] = none := by
    simp [routeIdf]
  have hpos : (0 : ℝ) < 30 := by norm_num
  simp [routeBest, route, scoredMatches, h5, score_eval_weather, hpos]

lemma score_eval_metaProbe : scoreSkill metaProbeSkill "hi" none = 10 := by
  have h1 : testWordBoundary (lowerStr "greet") (lowerStr "hi") = false := by
    decide
  have h2 : kwMatches (lowerStr "hi") "hi" = true := by decide
  have h3 : tokenize "hi" = [] := by decide
  simp [scoreSkill, namePhase, keywordPhase, tagPhase, descPhase,
    metaProbeSkill, h1, h2, h3]

lemma routeBest_eval_metaProbe :
    routeBest [metaProbeSkill] "hi" = some metaProbeSkill := by
  have h5 : routeIdf [metaProbeSkill] = none := by
    simp [routeIdf]
  simp [routeBest, route, scoredMatches, h5, score_eval_metaProbe, ten_pos]

-- -----------------------------------------------------------------------
-- C3: skillName and durationMs are always overwritten
-- -----------------------------------------------------------------------

/-- Claim C3: whenever `handle` produces an outcome — on the direct path, the
delegated path, and the fallback — that outcome's `skillName` equals the
matched skill's registered name and its `durationMs` equals the measured
wall-clock duration `round (t2 - t1)`, which is ≥ 0 for a monotone clock
(`t1 ≤ t2`); whatever the skill's own `execute` self-reported for these two
fields is discarded. -/
theorem handle_overwrites (reg : SkillRegistry) (input : String)
    (meta : Option Meta) (env : AgentEnv) (t1 t2 : ℚ) (r : SkillResult)
    (hle : t1 ≤ t2)
    (h : handle reg input meta env t1 t2 = .ok (some r)) :
    ∃ skill, routeBest reg.skills input = some skill
      ∧ r.skillName = skill.name
      ∧ r.durationMs = ((round (t2 - t1) : ℤ) : ℚ)
      ∧ 0 ≤ r.durationMs := by
  have hdur : (0 : ℚ) ≤ ((round (t2 - t1) : ℤ) : ℚ) := by
    have h0 : (0 : ℤ) ≤ round (t2 - t1) := round_nonneg_rat _ (by linarith)
    exact_mod_cast h0
  rcases hrb : routeBest reg.skills input with _ | skill
  · rw [handle_nomatch reg input meta env t1 t2 hrb] at h
    exact absurd h (by simp)
  · refine ⟨skill, rfl, ?_⟩
    cases he : nonDefaultEngine skill.engine with
    | true =>
        rw [handle_delegated reg input meta env t1 t2 skill hrb he] at h
        obtain ⟨h1, h2⟩ := executeViaAgentRunner_ok (map_some_eq_ok h)
        exact ⟨h1, h2, h2 ▸ hdur⟩
    | false =>
        rw [handle_direct reg input meta env t1 t2 skill hrb he] at h
        obtain ⟨h1, h2⟩ := executeWithTiming_ok (map_some_eq_ok h)
        exact ⟨h1, h2, h2 ▸ hdur⟩

/-- Witness for C3: a direct skill self-reporting name `"self"` and duration 5
is returned as `skillName = "greet"` with the measured duration 0. -/
theorem handle_overwrites_witness :
    ∃ skill, routeBest (SkillRegistry.mk [greetSkill]).skills "hi" = some skill
      ∧ (SkillResult.mk "ok" "greet" 0).skillName = skill.name
      ∧ (SkillResult.mk "ok" "greet" 0).durationMs
          = ((round ((0 : ℚ) - 0) : ℤ) : ℚ)
      ∧ 0 ≤ (SkillResult.mk "ok" "greet" 0).durationMs :=
  handle_overwrites ⟨[greetSkill]⟩ "hi" none ⟨none⟩ 0 0 ⟨"ok", "greet", 0⟩
    (le_refl 0) (handle_eval_greet none)

-- -----------------------------------------------------------------------
-- C2: backend failure falls back to direct execution
-- -----------------------------------------------------------------------

/-- Claim C2: for a matched skill with a non-default engine, if the backend is
unreachable or its invocation errors, `handle` falls back to the skill's own
`execute` and returns its (renamed, retimed) outcome — a non-none outcome
whose `skillName` is the matched skill's name; the backend failure is not
surfaced to the caller. -/
theorem handle_backend_fallback (reg : SkillRegistry) (input : String)
    (meta : Option Meta) (env : AgentEnv) (t1 t2 : ℚ)
    (skill : SkillDefinition) (r : SkillResult)
    (hrb : routeBest reg.skills input = some skill)
    (he : nonDefaultEngine skill.engine = true)
    (hfail : backendFails env skill input)
    (hex : skill.execute ⟨input, input, none⟩ = .ok r) :
    handle reg input meta env t1 t2
      = .ok (some ⟨r.output, skill.name, ((round (t2 - t1) : ℤ) : ℚ)⟩) := by
  have hfb : agentFallback skill input t1 t2
      = .ok ⟨r.output, skill.name, ((round (t2 - t1) : ℤ) : ℚ)⟩ := by
    unfold agentFallback
    rw [hex]
    rfl
  rw [handle_delegated reg input meta env t1 t2 skill hrb he]
  rcases hfail with hnone | ⟨run, msg, hrun, herr⟩
  · rw [eVAR_import_fail skill input env t1 t2 hnone, hfb]
    rfl
  · rw [eVAR_run_error skill input env t1 t2 run msg hrun herr, hfb]
    rfl

/-- Witness for C2: the delegated `weather` skill with an unreachable backend
still yields an outcome named `"weather"`. -/
theorem handle_backend_fallback_witness :
    handle ⟨[weatherSkill]⟩ "weather" none ⟨none⟩ 0 0
      = .ok (some ⟨"forecast", "weather", ((round ((0:ℚ) - 0) : ℤ) : ℚ)⟩) :=
  handle_backend_fallback ⟨[weatherSkill]⟩ "weather" none ⟨none⟩ 0 0
    weatherSkill ⟨"forecast", "self", 7⟩ routeBest_eval_weather rfl
    (Or.inl rfl) rfl

-- -----------------------------------------------------------------------
-- C1: meta propagation (corrected)
-- -----------------------------------------------------------------------

/-- Counterexample for C1 as stated: on the delegated path's fallback, the
context handed to the skill's `execute` does not carry the caller's `meta`.
The probe skill reports `"META"` when its context has a `meta` payload and
`"NOMETA"` otherwise; the caller supplies a `meta`, yet the outcome reports
`"NOMETA"` — while the same skill executed at a context that does carry the
caller's `meta` would report `"META"`.  So the ExecutionContext passed to
`execute` on this path has `meta = none`, not the caller's value. -/
theorem handle_meta_counterexample :
    handle ⟨[metaProbeSkill]⟩ "hi" (some [("userId", "123")]) ⟨none⟩ 0 0
      = .ok (some ⟨"NOMETA", "greet", 0⟩)
    ∧ metaProbeSkill.execute ⟨"hi", "hi", some [("userId", "123")]⟩
      = .ok ⟨"META", "self", 0⟩ := by
  constructor
  · have hex : metaProbeSkill.execute ⟨"hi", "hi", none⟩
        = .ok ⟨"NOMETA", "self", 0⟩ := rfl
    rw [handle_delegated ⟨[metaProbeSkill]⟩ "hi" (some [("userId", "123")])
      ⟨none⟩ 0 0 metaProbeSkill routeBest_eval_metaProbe rfl]
    rw [eVAR_import_fail metaProbeSkill "hi" ⟨none⟩ 0 0 rfl]
    unfold agentFallback
    rw [hex]
    simp [Except.map, metaProbeSkill]
  · rfl

/-- Claim C1, amended: the caller's `meta` reaches the skill's
ExecutionContext unchanged on the direct path only; on the delegated path
(both the backend run with its instruction harvest and the fallback) the
contexts are built without `meta`, so `handle`'s behaviour there is
independent of the supplied `meta`. -/
theorem handle_meta_amended (reg : SkillRegistry) (input : String)
    (meta : Option Meta) (env : AgentEnv) (t1 t2 : ℚ)
    (skill : SkillDefinition)
    (hrb : routeBest reg.skills input = some skill) :
    (nonDefaultEngine skill.engine = false →
      handle reg input meta env t1 t2
        = (executeWithTiming skill ⟨input, input, meta⟩ t1 t2).map some)
    ∧ (nonDefaultEngine skill.engine = true →
      ∀ meta', handle reg input meta env t1 t2
        = handle reg input meta' env t1 t2) := by
  constructor
  · intro he
    exact handle_direct reg input meta env t1 t2 skill hrb he
  · intro he meta'
    rw [handle_delegated reg input meta env t1 t2 skill hrb he,
      handle_delegated reg input meta' env t1 t2 skill hrb he]

/-- Witness for C1's amended statement: on the direct path the context passed
to `execute` carries the caller's `meta` verbatim. -/
theorem handle_meta_amended_witness :
    handle ⟨[greetSkill]⟩ "hi" (some [("userId", "123")]) ⟨none⟩ 0 0
      = (executeWithTiming greetSkill
          ⟨"hi", "hi", some [("userId", "123")]⟩ 0 0).map some :=
  (handle_meta_amended ⟨[greetSkill]⟩ "hi" (some [("userId", "123")]) ⟨none⟩
    0 0 greetSkill routeBest_eval_greet).1 rfl


-- -----------------------------------------------------------------------
-- Association-list lemmas for the JS `Map` model
-- -----------------------------------------------------------------------

lemma mapGet_cons {b : Type} (a : Tok) (v : b) (m : List (Tok × b))
    (k : Tok) :
    mapGet ((a, v) :: m) k = if k = a then some v else mapGet m k := by
  by_cases h : k = a
  · have hb : (k == a) = true := beq_iff_eq.mpr h
    rw [if_pos h]
    unfold mapGet
    rw [List.lookup_cons, hb]
  · have hb : (k == a) = false := beq_eq_false_iff_ne.mpr h
    rw [if_neg h]
    unfold mapGet
    rw [List.lookup_cons, hb]

lemma mapGet_eq_none {b : Type} (m : List (Tok × b)) (k : Tok)
    (hany : m.any (fun p => p.1 == k) = false) : mapGet m k = none := by
  induction m with
  | nil => rfl
  | cons a m ih =>
      obtain ⟨a1, a2⟩ := a
      simp only [List.any_cons, Bool.or_eq_false_iff] at hany
      obtain ⟨h1, h2⟩ := hany
      have hne : k ≠ a1 := fun hh => by
        rw [hh] at h1
        simp at h1
      rw [mapGet_cons, if_neg hne]
      exact ih h2

lemma mapGet_overwrite_ne {b : Type} (m : List (Tok × b)) (k : Tok) (v : b)
    (t : Tok) (h : t ≠ k) :
    mapGet (m.map (fun p => if p.1 == k then (k, v) else p)) t
      = mapGet m t := by
  induction m with
  | nil => rfl
  | cons a m ih =>
      obtain ⟨a1, a2⟩ := a
      rw [List.map_cons]
      by_cases hak : a1 = k
      · have hb : ((a1, a2).1 == k) = true := beq_iff_eq.mpr hak
        have hta : t ≠ a1 := fun hh => h (hh.trans hak)
        rw [if_pos hb, mapGet_cons, mapGet_cons, if_neg h, if_neg hta, ih]
      · have hb : ¬(((a1, a2).1 == k) = true) := by
          rw [beq_iff_eq]
          exact hak
        rw [if_neg hb, mapGet_cons, mapGet_cons, ih]

lemma mapGet_overwrite_eq {b : Type} (m : List (Tok × b)) (k : Tok) (v : b)
    (hany : m.any (fun p => p.1 == k) = true) :
    mapGet (m.map (fun p => if p.1 == k then (k, v) else p)) k = some v := by
  induction m with
  | nil =>
      rw [List.any_nil] at hany
      exact Bool.noConfusion hany
  | cons a m ih =>
      obtain ⟨a1, a2⟩ := a
      rw [List.map_cons]
      by_cases hak : a1 = k
      · have hb : ((a1, a2).1 == k) = true := beq_iff_eq.mpr hak
        rw [if_pos hb, mapGet_cons, if_pos rfl]
      · have hb : ¬(((a1, a2).1 == k) = true) := by
          rw [beq_iff_eq]
          exact hak
        have hka : k ≠ a1 := fun hh => hak hh.symm
        have hany' : m.any (fun p => p.1 == k) = true := by
          rw [List.any_cons] at hany
          have hb2 : ((a1, a2).1 == k) = false := beq_eq_false_iff_ne.mpr hak
          rw [hb2, Bool.false_or] at hany
          exact hany
        rw [if_neg hb, mapGet_cons, if_neg hka]
        exact ih hany'

lemma mapGet_mapSet {b : Type} (m : List (Tok × b)) (k : Tok) (v : b)
    (t : Tok) :
    mapGet (mapSet m k v) t = if t = k then some v else mapGet m t := by
  unfold mapSet
  by_cases hany : m.any (fun p => p.1 == k) = true
  · rw [if_pos hany]
    by_cases htk : t = k
    · subst htk
      rw [if_pos rfl]
      exact mapGet_overwrite_eq m t v hany
    · rw [if_neg htk]
      exact mapGet_overwrite_ne m k v t htk
  · rw [if_neg hany]
    have hany' : m.any (fun p => p.1 == k) = false := by
      cases hv : m.any (fun p => p.1 == k) with
      | false => rfl
      | true => exact absurd hv hany
    have happ : mapGet (m ++ [(k, v)]) t
        = (mapGet m t).or (mapGet [(k, v)] t) := List.lookup_append
    rw [happ]
    by_cases htk : t = k
    · subst htk
      rw [mapGet_eq_none m t hany', mapGet_cons, if_pos rfl, if_pos rfl]
      rfl
    · rw [if_neg htk, mapGet_cons, if_neg htk]
      show (mapGet m t).or (mapGet [] t) = mapGet m t
      cases mapGet m t <;> rfl

lemma mapGet_map_value {g : Type} (m : List (Tok × Nat)) (t : Tok)
    (f : Nat → g) :
    mapGet (m.map (fun p => (p.1, f p.2))) t = (mapGet m t).map f := by
  induction m with
  | nil => rfl
  | cons a m ih =>
      obtain ⟨a1, a2⟩ := a
      rw [List.map_cons]
      by_cases hta : t = a1
      · rw [mapGet_cons, mapGet_cons, if_pos hta, if_pos hta]
        rfl
      · rw [mapGet_cons, mapGet_cons, if_neg hta, if_neg hta, ih]


-- -----------------------------------------------------------------------
-- Characterisation of the IDF fold
-- -----------------------------------------------------------------------

lemma contains_iff_tok (l : List Tok) (t : Tok) :
    l.contains t = true ↔ t ∈ l := by
  simp [List.contains]

lemma dedupFold_mem (l : List Tok) :
    ∀ (acc : List Tok) (t : Tok),
      (t ∈ l.foldl (fun acc w => if acc.contains w then acc else acc ++ [w]) acc
        ↔ t ∈ acc ∨ t ∈ l) := by
  induction l with
  | nil => intro acc t; simp
  | cons w l ih =>
      intro acc t
      rw [List.foldl_cons]
      by_cases hc : acc.contains w = true
      · rw [if_pos hc, ih]
        have hw : w ∈ acc := (contains_iff_tok acc w).mp hc
        constructor
        · rintro (h | h)
          · exact Or.inl h
          · exact Or.inr (List.mem_cons_of_mem w h)
        · rintro (h | h)
          · exact Or.inl h
          · rcases List.mem_cons.mp h with rfl | h2
            · exact Or.inl hw
            · exact Or.inr h2
      · rw [if_neg hc, ih]
        rw [List.mem_append, List.mem_singleton, List.mem_cons]
        tauto

lemma dedupFold_nodup (l : List Tok) :
    ∀ (acc : List Tok), acc.Nodup →
      (l.foldl (fun acc w => if acc.contains w then acc else acc ++ [w])
        acc).Nodup := by
  induction l with
  | nil => intro acc hacc; exact hacc
  | cons w l ih =>
      intro acc hacc
      rw [List.foldl_cons]
      by_cases hc : acc.contains w = true
      · rw [if_pos hc]
        exact ih acc hacc
      · rw [if_neg hc]
        apply ih
        have hw : w ∉ acc := fun h => hc ((contains_iff_tok acc w).mpr h)
        simp [List.nodup_append, hacc, hw]

lemma uniqueTokens_nodup (text : String) : (uniqueTokens text).Nodup :=
  dedupFold_nodup _ [] List.nodup_nil

lemma mem_uniqueTokens (text : String) (t : Tok) :
    t ∈ uniqueTokens text ↔ t ∈ tokenize text := by
  unfold uniqueTokens
  rw [dedupFold_mem]
  simp

lemma mapGet_bumpFold (ws : List Tok) (t : Tok) :
    ∀ (m : List (Tok × Nat)), ws.Nodup →
      mapGet (ws.foldl (fun m w => mapSet m w ((mapGet m w).getD 0 + 1)) m) t
        = if t ∈ ws then some ((mapGet m t).getD 0 + 1) else mapGet m t := by
  induction ws with
  | nil => intro m _; simp
  | cons w ws ih =>
      intro m hnd
      obtain ⟨hw, hnd2⟩ := List.nodup_cons.mp hnd
      rw [List.foldl_cons, ih _ hnd2]
      by_cases htw : t = w
      · subst htw
        rw [if_neg hw, if_pos (List.mem_cons_self t ws), mapGet_mapSet,
          if_pos rfl]
      · rw [mapGet_mapSet, if_neg htw]
        by_cases hts : t ∈ ws
        · rw [if_pos hts, if_pos (List.mem_cons_of_mem w hts)]
        · have hnm : t ∉ w :: ws := by
            intro hmem
            rcases List.mem_cons.mp hmem with h | h
            · exact htw h
            · exact hts h
          rw [if_neg hts, if_neg hnm]

lemma mapGet_docFold (skills : List SkillDefinition) (t : Tok) :
    ∀ (m : List (Tok × Nat)),
      mapGet (skills.foldl (fun m skill =>
          (uniqueTokens skill.description).foldl
            (fun m w => mapSet m w ((mapGet m w).getD 0 + 1)) m) m) t
        = if appearsInCorpus skills t = true
          then some ((mapGet m t).getD 0 + docFreq skills t)
          else mapGet m t := by
  induction skills with
  | nil =>
      intro m
      have hfalse : ¬(appearsInCorpus ([] : List SkillDefinition) t = true) := by
        intro hx
        exact Bool.noConfusion hx
      rw [List.foldl_nil, if_neg hfalse]
  | cons s skills ih =>
      intro m
      rw [List.foldl_cons, ih _]
      have hinner := mapGet_bumpFold (uniqueTokens s.description) t m
        (uniqueTokens_nodup _)
      by_cases hc : (tokenize s.description).contains t = true
      · have htu : t ∈ uniqueTokens s.description :=
          (mem_uniqueTokens _ _).mpr ((contains_iff_tok _ _).mp hc)
        have ha1 : appearsInCorpus (s :: skills) t = true := by
          unfold appearsInCorpus
          rw [List.any_cons, hc, Bool.true_or]
        have hd1 : docFreq (s :: skills) t = docFreq skills t + 1 := by
          unfold docFreq
          rw [List.filter_cons, if_pos hc, List.length_cons]
        rw [hinner, if_pos htu, ha1, hd1, if_pos rfl]
        by_cases har : appearsInCorpus skills t = true
        · rw [har, if_pos rfl, Option.getD_some]
          have harr : (mapGet m t).getD 0 + 1 + docFreq skills t
              = (mapGet m t).getD 0 + (docFreq skills t + 1) := by omega
          rw [harr]
        · have har2 : appearsInCorpus skills t = false := by
            cases hv : appearsInCorpus skills t with
            | false => rfl
            | true => exact absurd hv har
          have hd0 : docFreq skills t = 0 := by
            unfold docFreq
            rw [List.length_eq_zero, List.filter_eq_nil_iff]
            unfold appearsInCorpus at har2
            exact List.any_eq_false.mp har2
          rw [har2, if_neg (by decide : ¬(false = true)), hd0]
      · have hcf : (tokenize s.description).contains t = false := by
          cases hv : (tokenize s.description).contains t with
          | false => rfl
          | true => exact absurd hv hc
        have htu : t ∉ uniqueTokens s.description := fun hmem =>
          hc ((contains_iff_tok _ _).mpr ((mem_uniqueTokens _ _).mp hmem))
        have ha2 : appearsInCorpus (s :: skills) t
            = appearsInCorpus skills t := by
          unfold appearsInCorpus
          rw [List.any_cons, hcf, Bool.false_or]
        have hd2 : docFreq (s :: skills) t = docFreq skills t := by
          unfold docFreq
          rw [List.filter_cons, if_neg (by rw [hcf]; decide)]
        rw [hinner, if_neg htu, ha2, hd2]

lemma mapGet_wordDocFreq (skills : List SkillDefinition) (t : Tok) :
    mapGet (wordDocFreq skills) t
      = if appearsInCorpus skills t = true
        then some (docFreq skills t) else none := by
  unfold wordDocFreq
  rw [mapGet_docFold skills t []]
  by_cases h : appearsInCorpus skills t = true
  · rw [if_pos h, if_pos h]
    have h0 : (mapGet ([] : List (Tok × Nat)) t).getD 0 = 0 := rfl
    rw [h0, Nat.zero_add]
  · rw [if_neg h, if_neg h]
    rfl

lemma mapGet_buildIdf (skills : List SkillDefinition) (t : Tok) :
    mapGet (buildIdf skills) t
      = if appearsInCorpus skills t = true
        then some (Real.log ((skills.length : ℝ) / (docFreq skills t : ℝ)))
        else none := by
  unfold buildIdf
  rw [mapGet_map_value (wordDocFreq skills) t
    (fun n => Real.log ((skills.length : ℝ) / (n : ℝ)))]
  rw [mapGet_wordDocFreq]
  by_cases h : appearsInCorpus skills t = true
  · rw [if_pos h, if_pos h]
    rfl
  · rw [if_neg h, if_neg h]
    rfl

lemma docFreq_le_length (skills : List SkillDefinition) (t : Tok) :
    docFreq skills t ≤ skills.length :=
  List.length_filter_le _ _

lemma docFreq_pos (skills : List SkillDefinition) (t : Tok)
    (h : appearsInCorpus skills t = true) : 1 ≤ docFreq skills t := by
  unfold appearsInCorpus at h
  obtain ⟨s, hs, hcont⟩ := List.any_eq_true.mp h
  have hmem : s ∈ skills.filter (fun s => (tokenize s.description).contains t) :=
    List.mem_filter.mpr ⟨hs, hcont⟩
  have hpos := List.length_pos.mpr (List.ne_nil_of_mem hmem)
  unfold docFreq
  omega

lemma buildIdf_value_nonneg (skills : List SkillDefinition) (t : Tok) (v : ℝ)
    (h : mapGet (buildIdf skills) t = some v) : 0 ≤ v := by
  rw [mapGet_buildIdf] at h
  by_cases ha : appearsInCorpus skills t = true
  · rw [if_pos ha] at h
    have hv := Option.some.inj h
    rw [← hv]
    apply Real.log_nonneg
    have h1 : 1 ≤ docFreq skills t := docFreq_pos skills t ha
    have h2 : docFreq skills t ≤ skills.length := docFreq_le_length skills t
    rw [one_le_div]
    · exact_mod_cast h2
    · have h0 : 0 < docFreq skills t := h1
      exact_mod_cast h0
  · rw [if_neg ha] at h
    exact absurd h (by simp)

-- -----------------------------------------------------------------------
-- C8: the corpus weighter and its threshold
-- -----------------------------------------------------------------------

/-- Claim C8: `buildIdf` assigns to exactly the tokens appearing in some
skill's description the weight `ln (N / df)`, where `df` is (declaratively)
the number of skills whose tokenized description contains the token; `route`
builds this weighting only when the skill count is at least 5, and with fewer
skills no weight map is used, every matched token weighing 1. -/
theorem buildIdf_spec (skills : List SkillDefinition) (t : Tok) :
    (mapGet (buildIdf skills) t
      = if appearsInCorpus skills t = true
        then some (Real.log ((skills.length : ℝ) / (docFreq skills t : ℝ)))
        else none)
    ∧ (5 ≤ skills.length → routeIdf skills = some (buildIdf skills))
    ∧ (skills.length < 5 → routeIdf skills = none)
    ∧ descWeight none t = 1 := by
  refine ⟨mapGet_buildIdf skills t, ?_, ?_, rfl⟩
  · intro h
    unfold routeIdf
    rw [if_pos h]
  · intro h
    unfold routeIdf
    rw [if_neg (by omega)]

/-- Witness for C8: with five skills the weight map is built; with one it is
not. -/
theorem buildIdf_spec_witness :
    routeIdf fiveSkills = some (buildIdf fiveSkills)
    ∧ routeIdf [dummySkill "s1" "alpha beta"] = none :=
  ⟨(buildIdf_spec fiveSkills ['b','e','t','a']).2.1 (by decide),
   (buildIdf_spec [dummySkill "s1" "alpha beta"] ['b','e','t','a']).2.2.1
     (by decide)⟩


-- -----------------------------------------------------------------------
-- C6: scores are nonnegative; zero exactly as matches dictate
-- -----------------------------------------------------------------------

lemma sum_map_nonneg {a : Type} (l : List a) (f : a → ℝ)
    (h : ∀ x ∈ l, 0 ≤ f x) : 0 ≤ (l.map f).sum := by
  apply List.sum_nonneg
  intro x hx
  rcases List.mem_map.mp hx with ⟨y, hy, rfl⟩
  exact h y hy

lemma namePhase_nonneg (skill : SkillDefinition) (input : String) :
    0 ≤ namePhase skill input := by
  unfold namePhase
  split <;> norm_num

lemma keywordPhase_nonneg (skill : SkillDefinition) (input : String) :
    0 ≤ keywordPhase skill input := by
  unfold keywordPhase
  cases skill.keywords with
  | none => norm_num
  | some kws =>
      apply sum_map_nonneg
      intro kw _
      split <;> norm_num

lemma tagPhase_nonneg (skill : SkillDefinition) (input : String) :
    0 ≤ tagPhase skill input := by
  unfold tagPhase
  cases skill.tags with
  | none => norm_num
  | some tags =>
      apply sum_map_nonneg
      intro tag _
      split <;> norm_num

lemma descWeight_corpus_nonneg (skills : List SkillDefinition) (w : Tok) :
    0 ≤ descWeight (some (buildIdf skills)) w := by
  show 0 ≤ (mapGet (buildIdf skills) w).getD 1
  cases hv : mapGet (buildIdf skills) w with
  | none => norm_num
  | some v =>
      rw [Option.getD_some]
      exact buildIdf_value_nonneg skills w v hv

lemma descPhase_nonneg (skill : SkillDefinition) (input : String)
    (idf : Option (List (Tok × ℝ))) (hw : ∀ w, 0 ≤ descWeight idf w) :
    0 ≤ descPhase skill input idf := by
  unfold descPhase
  apply sum_map_nonneg
  intro w _
  split
  · exact hw w
  · norm_num

lemma scoreSkill_nonneg_of (skill : SkillDefinition) (input : String)
    (idf : Option (List (Tok × ℝ))) (hw : ∀ w, 0 ≤ descWeight idf w) :
    0 ≤ scoreSkill skill input idf := by
  unfold scoreSkill
  have h1 := namePhase_nonneg skill input
  have h2 := keywordPhase_nonneg skill input
  have h3 := tagPhase_nonneg skill input
  have h4 := descPhase_nonneg skill input idf hw
  linarith

lemma route_pos (skills : List SkillDefinition) (input : String) :
    ∀ m ∈ route skills input, 0 < m.score := by
  intro m hm
  unfold route at hm
  rw [List.mem_mergeSort] at hm
  unfold scoredMatches at hm
  rcases List.mem_filterMap.mp hm with ⟨s, _, heq⟩
  by_cases hpos : 0 < scoreSkill s input (routeIdf skills)
  · rw [if_pos hpos] at heq
    obtain rfl := Option.some.inj heq
    exact hpos
  · rw [if_neg hpos] at heq
    exact absurd heq (by simp)

/-- Claim C6: the score is nonnegative both without a weight map and with any
map produced by the corpus weighter; when no phase matches the score is
exactly 0 (whatever weight map is passed); and every match `route` returns
has a strictly positive score. -/
theorem scoreSkill_nonneg_spec (skill : SkillDefinition) (input : String)
    (skills : List SkillDefinition) :
    0 ≤ scoreSkill skill input none
    ∧ 0 ≤ scoreSkill skill input (some (buildIdf skills))
    ∧ (∀ idf, phaseMatch skill input = false → scoreSkill skill input idf = 0)
    ∧ (∀ m ∈ route skills input, 0 < m.score) := by
  refine ⟨?_, ?_, ?_, route_pos skills input⟩
  · apply scoreSkill_nonneg_of
    intro w
    show (0 : ℝ) ≤ 1
    norm_num
  · exact scoreSkill_nonneg_of skill input _ (descWeight_corpus_nonneg skills)
  · intro idf h
    exact scoreSkill_eq_zero skill input idf h

/-- Witness for C6: the `greet` skill scores exactly 0 against an utterance
no phase matches. -/
theorem scoreSkill_nonneg_witness :
    scoreSkill greetSkill "something" none = 0 :=
  (scoreSkill_nonneg_spec greetSkill "something" []).2.2.1 none (by decide)

-- -----------------------------------------------------------------------
-- C7: the keyword phase (corrected: the source tests for a space, not for
-- arbitrary whitespace)
-- -----------------------------------------------------------------------

lemma sum_map_if_ten (l : List String) (p : String → Bool) :
    (l.map (fun kw => if p kw then (10 : ℝ) else 0)).sum
      = 10 * ((l.countP p : ℕ) : ℝ) := by
  induction l with
  | nil => simp
  | cons x l ih =>
      rw [List.map_cons, List.sum_cons, ih, List.countP_cons]
      by_cases h : p x = true
      · rw [if_pos h, if_pos h]
        push_cast
        ring
      · rw [if_neg h, if_neg h]
        push_cast
        ring

/-- Counterexample for C7 as stated: a keyword containing whitespace (a tab)
that occurs verbatim in the utterance — so substring containment holds — does
not match: the source's phrase test is `kw.includes(' ')`, a space-character
test, so a tab-separated keyword is routed to the word-boundary branch, where
it fails, and the keyword phase contributes nothing instead of the claimed
per-keyword weight 10.  (`isWhitespaceChar` renders the claim's word
"whitespace".) -/
theorem keywordWhitespace_counterexample :
    ¬ (∀ (skill : SkillDefinition) (kws : List String) (kw : String)
        (input : String),
        skill.keywords = some kws → kw ∈ kws →
        (lowerStr kw).any isWhitespaceChar = true →
        containsSubstr (lowerStr kw) (lowerStr input) = true →
        10 ≤ keywordPhase skill input) := by
  intro hclaim
  have h := hclaim tabSkill ["good\tmorning"] "good\tmorning"
    "xgood\tmorningz" rfl (List.mem_singleton.mpr rfl) (by decide) (by decide)
  have hkw : kwMatches (lowerStr "xgood\tmorningz") "good\tmorning"
      = false := by decide
  have hz : keywordPhase tabSkill "xgood\tmorningz" = 0 := by
    simp [keywordPhase, tabSkill, hkw]
  rw [hz] at h
  norm_num at h

/-- Claim C7, amended: a keyword containing a space character (U+0020)
matches by case-insensitive substring containment, any other keyword matches
only at whole-word boundaries, and each matching keyword independently adds
the fixed weight 10; single-word keyword `"hi"` scores 0 against
`"something"` and positively against `"hi there"`, and the space-separated
keyword `"good morning"` matches the utterance `"hey good morning"`. -/
theorem keywordPhase_spec (skill : SkillDefinition) (input : String) :
    keywordPhase skill input
      = 10 * (((skill.keywords.getD []).countP
          (fun kw => kwMatches (lowerStr input) kw) : ℕ) : ℝ)
    ∧ (∀ kw : String, (lowerStr kw).contains ' ' = true →
        kwMatches (lowerStr input) kw
          = containsSubstr (lowerStr kw) (lowerStr input))
    ∧ (∀ kw : String, (lowerStr kw).contains ' ' = false →
        kwMatches (lowerStr input) kw
          = testWordBoundary (lowerStr kw) (lowerStr input))
    ∧ scoreSkill greetSkill "something" none = 0
    ∧ 0 < scoreSkill greetSkill "hi there" none
    ∧ kwMatches (lowerStr "hey good morning") "good morning" = true := by
  refine ⟨?_, ?_, ?_, scoreSkill_eq_zero _ _ none (by decide), ?_, by decide⟩
  · cases hkw : skill.keywords with
    | none => simp [keywordPhase, hkw]
    | some kws =>
        simp only [keywordPhase, hkw, Option.getD_some]
        exact sum_map_if_ten kws _
  · intro kw h
    have hmem : ' ' ∈ lowerStr kw := by simpa using h
    simp [kwMatches, hmem]
  · intro kw h
    have hmem : ' ' ∉ lowerStr kw := by simpa using h
    simp [kwMatches, hmem]
  · have e1 : testWordBoundary (lowerStr "greet") (lowerStr "hi there")
        = false := by decide
    have e2 : kwMatches (lowerStr "hi there") "hi" = true := by decide
    have e4 : tokenize "hi there" = [['t','h','e','r','e']] := by decide
    have e5 : tokenMatches (tokenize "says hello") ['t','h','e','r','e']
        = false := by decide
    simp [scoreSkill, namePhase, keywordPhase, tagPhase, descPhase, greetSkill,
      e1, e2, e4, e5, ten_pos]

/-- Witness for C7's amended statement: the two match rules evaluated at the
spec's own examples. -/
theorem keywordPhase_spec_witness :
    kwMatches (lowerStr "hey good morning") "good morning"
      = containsSubstr (lowerStr "good morning") (lowerStr "hey good morning")
    ∧ kwMatches (lowerStr "something") "hi"
      = testWordBoundary (lowerStr "hi") (lowerStr "something") :=
  ⟨(keywordPhase_spec greetSkill "hey good morning").2.1 "good morning"
     (by decide),
   (keywordPhase_spec greetSkill "something").2.2.1 "hi" (by decide)⟩


-- -----------------------------------------------------------------------
-- C5: route sorts stably by descending score; routeBest takes the head
-- -----------------------------------------------------------------------

lemma leMatch_trans : ∀ a b c : RouteMatch,
    leMatch a b → leMatch b c → leMatch a c := by
  intro a b c hab hbc
  simp only [leMatch, decide_eq_true_eq] at hab hbc ⊢
  exact le_trans hbc hab

lemma leMatch_total : ∀ a b : RouteMatch, leMatch a b || leMatch b a := by
  intro a b
  simp only [leMatch, Bool.or_eq_true, decide_eq_true_eq]
  exact le_total b.score a.score

/-- Claim C5: `route` returns exactly the positively-scoring matches (a
permutation of the in-order match list), sorted by weakly descending score;
the sort is stable — for every score value, the matches carrying it appear in
the same order as in the input sequence; `routeBest` is the head of `route`'s
result (`none` when empty), and on the empty skill sequence it returns `none`
for every utterance. -/
theorem route_spec (skills : List SkillDefinition) (input : String) :
    (route skills input).Pairwise (fun a b => b.score ≤ a.score)
    ∧ (route skills input).Perm
        (scoredMatches skills input (routeIdf skills))
    ∧ (∀ c : ℝ, (route skills input).filter (fun m => decide (m.score = c))
        = (scoredMatches skills input (routeIdf skills)).filter
            (fun m => decide (m.score = c)))
    ∧ routeBest skills input
        = (route skills input).head?.map (fun m => m.skill)
    ∧ routeBest [] input = none := by
  refine ⟨?_, ?_, ?_, ?_, ?_⟩
  · have hs := List.sorted_mergeSort leMatch_trans leMatch_total
      (scoredMatches skills input (routeIdf skills))
    unfold route
    refine List.Pairwise.imp ?_ hs
    intro a b hab
    simpa [leMatch] using hab
  · unfold route
    exact List.mergeSort_perm _ leMatch
  · intro c
    unfold route
    set l := scoredMatches skills input (routeIdf skills) with hl
    set p : RouteMatch → Bool := fun m => decide (m.score = c) with hp
    have hsub : List.Sublist (l.filter p) l := List.filter_sublist l
    have hpw : (l.filter p).Pairwise (fun a b => leMatch a b) := by
      apply List.pairwise_of_forall_mem_list
      intro a ha b hb
      have ha2 := (List.mem_filter.mp ha).2
      have hb2 := (List.mem_filter.mp hb).2
      rw [hp] at ha2 hb2
      have ha3 : a.score = c := of_decide_eq_true ha2
      have hb3 : b.score = c := of_decide_eq_true hb2
      show leMatch a b = true
      simp [leMatch, ha3, hb3]
    have hstable := List.sublist_mergeSort leMatch_trans leMatch_total hpw hsub
    have hperm : ((l.mergeSort leMatch).filter p).Perm (l.filter p) :=
      (List.mergeSort_perm l leMatch).filter p
    have hsub2 : List.Sublist (l.filter p) ((l.mergeSort leMatch).filter p) := by
      have h1 : List.Sublist ((l.filter p).filter p)
          ((l.mergeSort leMatch).filter p) :=
        hstable.filter p
      have h2 : (l.filter p).filter p = l.filter p := by
        rw [List.filter_filter]
        apply List.filter_congr
        intro x _
        rw [Bool.and_self]
      rwa [h2] at h1
    have hlen : (l.filter p).length = ((l.mergeSort leMatch).filter p).length :=
      hperm.length_eq.symm
    exact (hsub2.eq_of_length hlen).symm
  · cases hr : route skills input with
    | nil => simp [routeBest, hr]
    | cons m ms => simp [routeBest, hr]
  · have h0 : route [] input = [] := by
      unfold route scoredMatches
      rw [List.filterMap_nil, List.mergeSort_nil]
    simp [routeBest, h0]

end SkillForge
